import Mathlib

/-!
Verification of the syzkaller coverage-merger subsystem and of the dashboard
crash-reference bookkeeping.

The covermerger core (stream orchestrator, commit content resolver interface,
line correlator, per-file aggregator) is embedded below; the repository copy at
hand contains only its integration test (`pkg/covermerger/covermerger_test.go`),
so the core's definitions are modelled from the specification while the test
mock (`fileVersProviderMock.GetFileVersions`) and the dashboard entity code
(`Crash.AddReference` in the datastore entity file) are translated directly
from the Go source.
-/

set_option autoImplicit false

namespace Covermerger

/-- The `RepoCommit` pair (repository URL + commit identifier), as in the
covermerger package: identifies one content version of the whole tree;
equality is structural. -/
structure RepoCommit where
  repo : String
  commit : String
deriving DecidableEq, Repr

/-- Modelled from the spec: a parsed coverage Sample Record, restricted to
the fields the core consumes (file path, repository+commit, line range,
hit count); the auxiliary metadata (arch, build id, manager, etc.) is carried
through unused and is omitted here.  `endLine` is an `Int` because the input
uses the sentinel value `-1` for "same as start". -/
structure MergeRecord where
  filePath : String
  repoCommit : RepoCommit
  startLine : Nat
  endLine : Int
  hitCount : Nat
deriving DecidableEq, Repr

/-- Modelled from the spec: the set of source lines a sample credits.
For the sentinel (`endLine < startLine`, in the fixtures `endLine = -1` or a
single-point range) the sample covers exactly `startLine`; otherwise every
line in `[startLine, endLine]`. -/
def coveredLines (r : MergeRecord) : List Nat :=
  if r.endLine < (r.startLine : Int) then [r.startLine]
  else List.range' r.startLine (r.endLine.toNat + 1 - r.startLine)

/-- The `MergeResult`: per file, the existence flag at base plus the accumulated
base-line → hit-count table.  The table is kept as an association list sorted
strictly by line number, the canonical form of a finite map; `FileExists =
false` always comes with an empty table. -/
structure MergeResult where
  HitCounts : List (Nat × Nat)
  FileExists : Bool
deriving DecidableEq, Repr

/-- Insert a (base line, hit count) contribution into a sorted hit-count
table, summing with the line's existing accumulator when present. -/
def insertAdd : List (Nat × Nat) → Nat → Nat → List (Nat × Nat)
  | [], line, hit => [(line, hit)]
  | (l, h) :: rest, line, hit =>
    if line < l then (line, hit) :: (l, h) :: rest
    else if line = l then (l, h + hit) :: rest
    else (l, h) :: insertAdd rest line hit

/-- Look a line up in a hit-count table. -/
def lookupLine : List (Nat × Nat) → Nat → Option Nat
  | [], _ => none
  | (l, h) :: rest, k => if k = l then some h else lookupLine rest k

/-- Modelled from the spec: the line correlator's longest-common-subsequence
alignment, fuel-indexed so that the recursion is structural (the fuel is
always instantiated with the sum of the two lengths, which the recursion
never exhausts).  `i`/`j` are the 1-based line numbers of the heads of the
two remaining lists.  Matching equal heads is always optimal for LCS; on a
tie between skipping a line of A and skipping a line of B the A-side skip is
preferred, which keeps matched lines in the earliest possible position of B. -/
def lcsFuel : Nat → Nat → Nat → List String → List String → List (Nat × Nat)
  | 0, _, _, _, _ => []
  | _ + 1, _, _, [], _ => []
  | _ + 1, _, _, _ :: _, [] => []
  | fuel + 1, i, j, a :: as, b :: bs =>
    if a = b then (i, j) :: lcsFuel fuel (i + 1) (j + 1) as bs
    else
      let skipA := lcsFuel fuel (i + 1) j as (b :: bs)
      let skipB := lcsFuel fuel i (j + 1) (a :: as) bs
      if skipB.length > skipA.length then skipB else skipA

/-- The matched (line of A, line of B) pairs of the alignment, 1-based. -/
def lcsPairs (a b : List String) : List (Nat × Nat) :=
  lcsFuel (a.length + b.length) 1 1 a b

/-- Modelled from the spec: `correlate(contentA, contentB)` as a partial map
from 1-based line numbers of A to line numbers of B, defined exactly on the
lines the alignment matched. -/
def correlate (a b : List String) : Nat → Option Nat :=
  fun i => ((lcsPairs a b).find? (fun p => p.1 = i)).map (fun p => p.2)

/-- A resolver for one file: content (as a list of lines) per `RepoCommit`,
`none` meaning the file is absent at that commit. -/
def FileVersions : Type := RepoCommit → Option (List String)

/-- Modelled from the spec: the line mapping the aggregator uses for one
sample commit.  If the sample's commit is the base commit itself the mapping
is the identity; if the commit's content is unavailable no lines correlate;
otherwise the correlator's mapping from that content to the base content. -/
def mappingFor (fileVers : FileVersions) (base : RepoCommit)
    (baseLines : List String) (rc : RepoCommit) : Nat → Option Nat :=
  if rc = base then fun i => some i
  else match fileVers rc with
    | none => fun _ => none
    | some lines => correlate lines baseLines

/-- One step of the per-sample fold: a covered line that resolves to a base
line adds the sample's hit count there; an unresolved line is dropped. -/
def covStep (mapping : Nat → Option Nat) (hit : Nat)
    (acc : List (Nat × Nat)) (ln : Nat) : List (Nat × Nat) :=
  match mapping ln with
  | some baseLine => insertAdd acc baseLine hit
  | none => acc

/-- Modelled from the spec: fold one sample into the hit-count accumulator:
every covered line that resolves to a base line adds the sample's hit count
there; unresolved lines are dropped. -/
def addSample (mapping : Nat → Option Nat) (r : MergeRecord)
    (acc : List (Nat × Nat)) : List (Nat × Nat) :=
  (coveredLines r).foldl (covStep mapping r.hitCount) acc

/-- One step of the per-file fold: fold one record through its commit's line
mapping. -/
def recStep (fileVers : FileVersions) (base : RepoCommit) (baseLines : List String)
    (acc : List (Nat × Nat)) (r : MergeRecord) : List (Nat × Nat) :=
  addSample (mappingFor fileVers base baseLines r.repoCommit) r acc

/-- Modelled from the spec: the per-file aggregator.  If the file is absent
at base, `FileExists = false` with no hit-count data regardless of the
samples; otherwise fold every sample through its commit's line mapping. -/
def mergeFile (fileVers : FileVersions) (base : RepoCommit)
    (recs : List MergeRecord) : MergeResult :=
  match fileVers base with
  | none => ⟨[], false⟩
  | some baseLines =>
    ⟨recs.foldl (recStep fileVers base baseLines) [], true⟩

/-- A whole-run resolver: per file path, content per commit. -/
def Resolver : Type := String → FileVersions

/-- Modelled from the spec: the stream orchestrator's result — one
`MergeResult` per file path seen in the input stream, each computed by the
per-file aggregator from exactly that file's records. -/
def aggregateStreamData (resolver : Resolver) (base : RepoCommit)
    (recs : List MergeRecord) : String → Option MergeResult :=
  fun path =>
    if recs.any (fun r => r.filePath = path) then
      some (mergeFile (resolver path) base (recs.filter (fun r => r.filePath = path)))
    else none

/-- Modelled from the spec: the final assembly step of the orchestrator,
folding the per-file worker results into the output map in the order the
worker tasks complete (`order`). -/
def assembleWith (resolver : Resolver) (base : RepoCommit)
    (recs : List MergeRecord) (order : List String) : String → Option MergeResult :=
  order.foldl
    (fun acc f => fun g =>
      if g = f then some (mergeFile (resolver f) base (recs.filter (fun r => r.filePath = f)))
      else acc g)
    (fun _ => none)

end Covermerger

namespace Covermerger.Fixtures

/-- Modelled from the spec: `change_line.c` at commit1 — three lines. -/
def changeLineV1 : List String := ["l1", "l2", "l3"]

/-- Modelled from the spec: `change_line.c` at the base commit2 — source
line 2 was modified, line 3 is unchanged relative to commit1. -/
def changeLineV2 : List String := ["l1", "l2x", "l3"]

/-- Modelled from the spec: `delete_code.c` at commit1 — the covered line 2
exists. -/
def deleteCodeV1 : List String := ["l1", "l2", "l3"]

/-- Modelled from the spec: `delete_code.c` at the base commit2 — line 2 of
commit1 was deleted. -/
def deleteCodeV2 : List String := ["l1", "l3"]

/-- Modelled from the spec: `not_changed.c`, identical at commit1 and the
base commit2, with at least four lines. -/
def notChangedV : List String := ["l1", "l2", "l3", "l4"]

/-- commit1 of the integration fixtures. -/
def commit1 : RepoCommit := ⟨"git://repo", "commit1"⟩

/-- commit2, the base commit of the integration fixtures. -/
def commit2 : RepoCommit := ⟨"git://repo", "commit2"⟩

/-- Modelled from the spec: the canned fixture resolver of the integration
test workdir: `delete_file.c` exists only at commit1 (deleted by the base
commit), the other files as described by their per-commit contents. -/
def fixtureResolver : Resolver := fun path rc =>
  if path = "change_line.c" then
    if rc = commit1 then some changeLineV1
    else if rc = commit2 then some changeLineV2
    else none
  else if path = "delete_code.c" then
    if rc = commit1 then some deleteCodeV1
    else if rc = commit2 then some deleteCodeV2
    else none
  else if path = "delete_file.c" then
    if rc = commit1 then some ["l1", "l2", "l3"]
    else none
  else if path = "not_changed.c" then
    if rc = commit1 ∨ rc = commit2 then some notChangedV
    else none
  else none

/-- The two `change_line.c` samples of the fixture stream: commit1 line 2
hit 1, and commit1 line 3 hit 1. -/
def changeLineRecords : List MergeRecord :=
  [⟨"change_line.c", commit1, 2, 2, 1⟩, ⟨"change_line.c", commit1, 3, 3, 1⟩]

/-- The `delete_file.c` sample of the fixture stream: commit1 line 2 hit 1. -/
def deleteFileRecords : List MergeRecord :=
  [⟨"delete_file.c", commit1, 2, 2, 1⟩]

/-- The `delete_code.c` sample of the fixture stream: commit1 line 2 hit 1. -/
def deleteCodeRecords : List MergeRecord :=
  [⟨"delete_code.c", commit1, 2, 2, 1⟩]

/-- The two `not_changed.c` zero-hit samples of the fixture stream: commit1
line 3 hit 0 and commit2 line 4 hit 0. -/
def notChangedRecords : List MergeRecord :=
  [⟨"not_changed.c", commit1, 3, 3, 0⟩, ⟨"not_changed.c", commit2, 4, 4, 0⟩]

end Covermerger.Fixtures

namespace Covermerger

/-- Looking a line up after an `insertAdd` succeeds exactly for the inserted
line and for the lines already present. -/
theorem lookupLine_insertAdd_ne_none (m : List (Nat × Nat)) (k v k' : Nat) :
    lookupLine (insertAdd m k v) k' ≠ none ↔ (k' = k ∨ lookupLine m k' ≠ none) := by
  induction m with
  | nil =>
    by_cases h : k' = k <;> simp [insertAdd, lookupLine, h]
  | cons p rest ih =>
    obtain ⟨l, hcount⟩ := p
    simp only [insertAdd]
    split_ifs with h1 h2
    · simp only [lookupLine]
      split_ifs with h3 h4 <;> simp_all
    · subst h2
      simp only [lookupLine]
      split_ifs with h3 <;> simp_all
    · simp only [lookupLine]
      split_ifs with h3 <;> simp_all [ih]

/-- The per-sample fold never removes a line already present in the table. -/
theorem foldl_covStep_preserves (mp : Nat → Option Nat) (hit : Nat) :
    ∀ (L : List Nat) (acc : List (Nat × Nat)) (K : Nat),
      lookupLine acc K ≠ none →
      lookupLine (L.foldl (covStep mp hit) acc) K ≠ none := by
  intro L
  induction L with
  | nil => intro acc K h; simpa using h
  | cons x L ih =>
    intro acc K h
    simp only [List.foldl_cons]
    apply ih
    cases hmx : mp x with
    | none => simpa [covStep, hmx] using h
    | some b =>
      simp only [covStep, hmx]
      rw [lookupLine_insertAdd_ne_none]
      exact Or.inr h

/-- A covered line that the mapping sends to base line `K` makes `K` present
in the table after the per-sample fold. -/
theorem foldl_covStep_adds (mp : Nat → Option Nat) (hit : Nat) :
    ∀ (L : List Nat) (acc : List (Nat × Nat)) (ln K : Nat),
      ln ∈ L → mp ln = some K →
      lookupLine (L.foldl (covStep mp hit) acc) K ≠ none := by
  intro L
  induction L with
  | nil => intro acc ln K h _; simp at h
  | cons x L ih =>
    intro acc ln K hmem hmp
    simp only [List.foldl_cons]
    rcases List.mem_cons.mp hmem with h | h
    · subst h
      apply foldl_covStep_preserves
      simp only [covStep, hmp]
      rw [lookupLine_insertAdd_ne_none]
      exact Or.inl rfl
    · exact ih _ _ _ h hmp

/-- A sample all of whose covered lines are unmapped contributes nothing. -/
theorem foldl_covStep_none (mp : Nat → Option Nat) (hit : Nat) :
    ∀ (L : List Nat) (acc : List (Nat × Nat)),
      (∀ ln ∈ L, mp ln = none) → L.foldl (covStep mp hit) acc = acc := by
  intro L
  induction L with
  | nil => intro acc _; rfl
  | cons x L ih =>
    intro acc h
    simp only [List.foldl_cons]
    rw [show covStep mp hit acc x = acc by simp [covStep, h x (List.mem_cons_self x L)]]
    exact ih acc (fun ln hln => h ln (List.mem_cons_of_mem x hln))

/-- The per-file fold never removes a line already present in the table. -/
theorem foldl_recStep_preserves (fv : FileVersions) (base : RepoCommit) (bl : List String) :
    ∀ (recs : List MergeRecord) (acc : List (Nat × Nat)) (K : Nat),
      lookupLine acc K ≠ none →
      lookupLine (recs.foldl (recStep fv base bl) acc) K ≠ none := by
  intro recs
  induction recs with
  | nil => intro acc K h; simpa using h
  | cons r recs ih =>
    intro acc K h
    simp only [List.foldl_cons]
    apply ih
    unfold recStep addSample
    exact foldl_covStep_preserves _ _ _ _ _ h

/-- A sample in the record list whose covered line resolves to base line `K`
makes `K` present in the final table. -/
theorem foldl_recStep_adds (fv : FileVersions) (base : RepoCommit) (bl : List String) :
    ∀ (recs : List MergeRecord) (acc : List (Nat × Nat)) (s : MergeRecord) (ln K : Nat),
      s ∈ recs → ln ∈ coveredLines s →
      mappingFor fv base bl s.repoCommit ln = some K →
      lookupLine (recs.foldl (recStep fv base bl) acc) K ≠ none := by
  intro recs
  induction recs with
  | nil => intro acc s ln K h _ _; simp at h
  | cons r recs ih =>
    intro acc s ln K hmem hln hmp
    simp only [List.foldl_cons]
    rcases List.mem_cons.mp hmem with h | h
    · subst h
      apply foldl_recStep_preserves
      unfold recStep addSample
      exact foldl_covStep_adds _ _ _ _ _ _ hln hmp
    · exact ih _ _ _ _ h hln hmp

/-- Records all of whose covered lines are unmapped contribute nothing. -/
theorem foldl_recStep_none (fv : FileVersions) (base : RepoCommit) (bl : List String) :
    ∀ (recs : List MergeRecord) (acc : List (Nat × Nat)),
      (∀ r ∈ recs, ∀ ln ∈ coveredLines r, mappingFor fv base bl r.repoCommit ln = none) →
      recs.foldl (recStep fv base bl) acc = acc := by
  intro recs
  induction recs with
  | nil => intro acc _; rfl
  | cons r recs ih =>
    intro acc h
    simp only [List.foldl_cons]
    rw [show recStep fv base bl acc r = acc from
      foldl_covStep_none _ _ _ _ (h r (List.mem_cons_self r recs))]
    exact ih acc (fun r' hr' => h r' (List.mem_cons_of_mem r hr'))

/-- On two identical texts the alignment matches every line with itself. -/
theorem lcsFuel_self_find (c : List String) :
    ∀ (f i n : Nat), c.length ≤ f → i ≤ n → n < i + c.length →
      (lcsFuel f i i c c).find? (fun p => p.1 = n) = some (n, n) := by
  induction c with
  | nil => intro f i n _ h1 h2; simp at h2; omega
  | cons x xs ih =>
    intro f i n hf h1 h2
    cases f with
    | zero => simp at hf
    | succ f' =>
      have hstep : lcsFuel (f' + 1) i i (x :: xs) (x :: xs)
          = (i, i) :: lcsFuel f' (i + 1) (i + 1) xs xs := by
        simp [lcsFuel]
      rw [hstep]
      by_cases hn : n = i
      · subst hn
        rw [List.find?_cons_of_pos _ (by simp)]
      · rw [List.find?_cons_of_neg _ (by simp [Ne.symm hn])]
        have hf' : xs.length ≤ f' := by simpa using hf
        exact ih f' (i + 1) n hf' (by omega) (by simp at h2; omega)

/-- The correlator maps every valid line of a text to itself when both sides
are the same text. -/
theorem correlate_self (c : List String) (n : Nat) (h1 : 1 ≤ n) (h2 : n ≤ c.length) :
    correlate c c n = some n := by
  unfold correlate lcsPairs
  rw [lcsFuel_self_find c (c.length + c.length) 1 n (by omega) h1 (by omega)]
  rfl

/-- The aggregator's line mapping is the identity on valid line numbers both
for the base commit itself and for any commit whose content equals the base
content. -/
theorem mappingFor_identity (fv : FileVersions) (base : RepoCommit) (bl : List String)
    (rc : RepoCommit) (i : Nat) (hid : rc = base ∨ fv rc = some bl)
    (h1 : 1 ≤ i) (h2 : i ≤ bl.length) :
    mappingFor fv base bl rc i = some i := by
  by_cases hb : rc = base
  · simp [mappingFor, hb]
  · rcases hid with h | h
    · exact absurd h hb
    · unfold mappingFor
      rw [if_neg hb, h]
      exact correlate_self bl i h1 h2

/-- Whether a list has an element satisfying `p` is determined by its
`p`-filtered sublist. -/
theorem any_eq_not_isEmpty_filter {α : Type} (p : α → Bool) (l : List α) :
    l.any p = !(l.filter p).isEmpty := by
  induction l with
  | nil => rfl
  | cons x l ih =>
    by_cases h : p x <;> simp [List.any_cons, List.filter_cons, h, ih]

/-- The assembled output map holds, for each file of the task order, exactly
that file's aggregation result, independent of where in the order it sits. -/
theorem assembleWith_apply (resolver : Resolver) (base : RepoCommit)
    (recs : List MergeRecord) :
    ∀ (order : List String) (acc : String → Option MergeResult) (g : String),
      (order.foldl
        (fun acc' f => fun g' =>
          if g' = f then
            some (mergeFile (resolver f) base (recs.filter (fun r => r.filePath = f)))
          else acc' g')
        acc) g
      = if g ∈ order then
          some (mergeFile (resolver g) base (recs.filter (fun r => r.filePath = g)))
        else acc g := by
  intro order
  induction order with
  | nil => intro acc g; simp
  | cons f rest ih =>
    intro acc g
    simp only [List.foldl_cons]
    rw [ih]
    by_cases hg : g ∈ rest
    · simp [hg, List.mem_cons]
    · by_cases hgf : g = f
      · subst hgf
        simp [hg, List.mem_cons]
      · simp [hg, hgf, List.mem_cons]

end Covermerger

namespace Covermerger

/-- Claim C1: for the merge run over the change_line.c fixture (base commit
commit2 where source line 2 was modified and line 3 is unchanged relative to
commit1) with exactly two input samples from commit1 — line 2 with hit count 1
and line 3 with hit count 1 — the result for change_line.c is
FileExists = true with HitCounts exactly {3: 1}: the sample on the modified
line 2 is dropped, the sample on the unchanged line 3 is kept at its
correlated base line number. -/
theorem claim_C1 :
    aggregateStreamData Fixtures.fixtureResolver Fixtures.commit2
      Fixtures.changeLineRecords "change_line.c"
    = some ⟨[(3, 1)], true⟩ := by decide

/-- Claim C2: for every file path that does not resolve to content at the
base commit, the merge result for that file is exactly FileExists = false
with no hit-count data, for every set of input samples referencing that
file; absence at the base commit is a normal resolved outcome of the run,
not an error. -/
theorem claim_C2 (resolver : Resolver) (base : RepoCommit) (recs : List MergeRecord)
    (path : String)
    (habsent : resolver path base = none)
    (hseen : recs.any (fun r => r.filePath = path) = true) :
    aggregateStreamData resolver base recs path = some ⟨[], false⟩ := by
  unfold aggregateStreamData
  rw [if_pos hseen]
  simp [mergeFile, habsent]

/-- Witness for C2: the delete_file.c fixture — one sample with hit count 1
at line 2 from commit1 for a file deleted by the base commit yields
FileExists = false. -/
theorem claim_C2_witness :
    aggregateStreamData Fixtures.fixtureResolver Fixtures.commit2
      Fixtures.deleteFileRecords "delete_file.c"
    = some ⟨[], false⟩ :=
  claim_C2 Fixtures.fixtureResolver Fixtures.commit2 Fixtures.deleteFileRecords
    "delete_file.c" (by decide) (by decide)

/-- Claim C3: for a file that resolves to content at the base commit but all
of whose samples refer only to lines with no correspondent in the base
version, the merge result is FileExists = true with an empty hit-count
table — distinct from the FileExists = false result produced when the file
itself is absent at base. -/
theorem claim_C3 (resolver : Resolver) (base : RepoCommit) (recs : List MergeRecord)
    (path : String) (baseLines : List String)
    (hbase : resolver path base = some baseLines)
    (hseen : recs.any (fun r => r.filePath = path) = true)
    (hdrop : ∀ r ∈ recs.filter (fun r => r.filePath = path), ∀ ln ∈ coveredLines r,
      mappingFor (resolver path) base baseLines r.repoCommit ln = none) :
    aggregateStreamData resolver base recs path = some ⟨[], true⟩ := by
  unfold aggregateStreamData
  rw [if_pos hseen]
  simp only [mergeFile, hbase]
  rw [foldl_recStep_none (resolver path) base baseLines _ [] hdrop]

/-- Witness for C3: the delete_code.c fixture — the only sample covers the
line deleted by the base commit, so the result is FileExists = true with an
empty table. -/
theorem claim_C3_witness :
    aggregateStreamData Fixtures.fixtureResolver Fixtures.commit2
      Fixtures.deleteCodeRecords "delete_code.c"
    = some ⟨[], true⟩ :=
  claim_C3 Fixtures.fixtureResolver Fixtures.commit2 Fixtures.deleteCodeRecords
    "delete_code.c" Fixtures.deleteCodeV2 (by decide) (by decide) (by decide)

/-- Claim C4: a sample (in particular one with hit count 0) whose line
correlates to a base line causes that base line to appear in the output
table; and the not_changed.c fixture with two zero-hit samples from two
different commits correlating to base lines 3 and 4 yields FileExists = true
with HitCounts exactly {3: 0, 4: 0}. -/
theorem claim_C4 (fileVers : FileVersions) (base : RepoCommit) (baseLines : List String)
    (recs : List MergeRecord) (s : MergeRecord) (ln L : Nat)
    (hbase : fileVers base = some baseLines)
    (hs : s ∈ recs) (hln : ln ∈ coveredLines s)
    (hmap : mappingFor fileVers base baseLines s.repoCommit ln = some L) :
    lookupLine (mergeFile fileVers base recs).HitCounts L ≠ none ∧
    aggregateStreamData Fixtures.fixtureResolver Fixtures.commit2
      Fixtures.notChangedRecords "not_changed.c"
    = some ⟨[(3, 0), (4, 0)], true⟩ := by
  constructor
  · simp only [mergeFile, hbase]
    exact foldl_recStep_adds fileVers base baseLines recs [] s ln L hs hln hmap
  · decide

/-- Witness for C4: the first zero-hit not_changed.c sample (commit1, line 3)
correlates to base line 3, which therefore appears in the table. -/
theorem claim_C4_witness :
    lookupLine (mergeFile (Fixtures.fixtureResolver "not_changed.c") Fixtures.commit2
      Fixtures.notChangedRecords).HitCounts 3 ≠ none ∧
    aggregateStreamData Fixtures.fixtureResolver Fixtures.commit2
      Fixtures.notChangedRecords "not_changed.c"
    = some ⟨[(3, 0), (4, 0)], true⟩ :=
  claim_C4 (Fixtures.fixtureResolver "not_changed.c") Fixtures.commit2
    Fixtures.notChangedV Fixtures.notChangedRecords
    ⟨"not_changed.c", Fixtures.commit1, 3, 3, 0⟩ 3 3
    (by decide) (by decide) (by decide) (by decide)

/-- Claim C5: for two samples for the same file whose covered lines both
correlate to the same base line number, the accumulated hit count at that
base line equals the sum of the two samples' hit counts, whether the samples
originate from the same commit or from different commits. -/
theorem claim_C5 (fileVers : FileVersions) (base : RepoCommit) (baseLines : List String)
    (s1 s2 : MergeRecord) (l1 l2 L : Nat)
    (hbase : fileVers base = some baseLines)
    (hc1 : coveredLines s1 = [l1]) (hc2 : coveredLines s2 = [l2])
    (hm1 : mappingFor fileVers base baseLines s1.repoCommit l1 = some L)
    (hm2 : mappingFor fileVers base baseLines s2.repoCommit l2 = some L) :
    lookupLine (mergeFile fileVers base [s1, s2]).HitCounts L
      = some (s1.hitCount + s2.hitCount) := by
  simp only [mergeFile, hbase, List.foldl_cons, List.foldl_nil]
  unfold recStep addSample
  rw [hc1, hc2]
  simp only [List.foldl_cons, List.foldl_nil, covStep, hm1, hm2]
  simp [insertAdd, lookupLine]

/-- Witness for C5: two samples at line 3 of not_changed.c, one from commit1
with hit count 2 and one from the base commit2 with hit count 5, accumulate
to 7 at base line 3. -/
theorem claim_C5_witness :
    lookupLine (mergeFile (Fixtures.fixtureResolver "not_changed.c") Fixtures.commit2
      [⟨"not_changed.c", Fixtures.commit1, 3, 3, 2⟩,
       ⟨"not_changed.c", Fixtures.commit2, 3, 3, 5⟩]).HitCounts 3
    = some (2 + 5) :=
  claim_C5 (Fixtures.fixtureResolver "not_changed.c") Fixtures.commit2
    Fixtures.notChangedV
    ⟨"not_changed.c", Fixtures.commit1, 3, 3, 2⟩
    ⟨"not_changed.c", Fixtures.commit2, 3, 3, 5⟩ 3 3 3
    (by decide) (by decide) (by decide) (by decide) (by decide)

/-- Claim C6: for every file whose content is identical between a sample's
commit and the base commit (including when the sample's RepoCommit equals
the base commit), the line mapping used for that sample is the identity on
the file's line numbers, so hit counts are accumulated unchanged at the
samples' original line numbers. -/
theorem claim_C6 (fileVers : FileVersions) (base : RepoCommit) (baseLines : List String)
    (rc : RepoCommit) (i : Nat)
    (hbase : fileVers base = some baseLines)
    (hsame : rc = base ∨ fileVers rc = some baseLines)
    (h1 : 1 ≤ i) (h2 : i ≤ baseLines.length) :
    mappingFor fileVers base baseLines rc i = some i ∧
    ∀ s : MergeRecord, s.repoCommit = rc → coveredLines s = [i] →
      mergeFile fileVers base [s] = ⟨[(i, s.hitCount)], true⟩ := by
  have hid := mappingFor_identity fileVers base baseLines rc i hsame h1 h2
  refine ⟨hid, ?_⟩
  intro s hrc hcov
  simp only [mergeFile, hbase, List.foldl_cons, List.foldl_nil]
  unfold recStep addSample
  rw [hcov, hrc]
  simp [covStep, hid, insertAdd]

/-- Witness for C6: not_changed.c is identical at commit1 and the base
commit2; line 3 maps to itself and a single commit1 sample at line 3 with
hit count 4 lands unchanged at base line 3. -/
theorem claim_C6_witness :
    mappingFor (Fixtures.fixtureResolver "not_changed.c") Fixtures.commit2
      Fixtures.notChangedV Fixtures.commit1 3 = some 3 ∧
    ∀ s : MergeRecord, s.repoCommit = Fixtures.commit1 → coveredLines s = [3] →
      mergeFile (Fixtures.fixtureResolver "not_changed.c") Fixtures.commit2 [s]
        = ⟨[(3, s.hitCount)], true⟩ :=
  claim_C6 (Fixtures.fixtureResolver "not_changed.c") Fixtures.commit2
    Fixtures.notChangedV Fixtures.commit1 3
    (by decide) (by decide) (by decide) (by decide)

/-- Claim C7: the merge is deterministic — in this pure embedding the result
is a function of input and configuration, and the assembled output map is
independent of the order in which the per-file worker tasks complete: any
two completion orders that are permutations of one another yield the same
output map. -/
theorem claim_C7 (resolver : Resolver) (base : RepoCommit) (recs : List MergeRecord)
    (order order' : List String) (hperm : order.Perm order') :
    assembleWith resolver base recs order = assembleWith resolver base recs order' := by
  funext g
  unfold assembleWith
  rw [assembleWith_apply, assembleWith_apply]
  simp [hperm.mem_iff]

/-- Witness for C7: assembling change_line.c and delete_code.c in either
completion order yields the same output map. -/
theorem claim_C7_witness :
    assembleWith Fixtures.fixtureResolver Fixtures.commit2 Fixtures.changeLineRecords
      ["change_line.c", "delete_code.c"]
    = assembleWith Fixtures.fixtureResolver Fixtures.commit2 Fixtures.changeLineRecords
      ["delete_code.c", "change_line.c"] :=
  claim_C7 Fixtures.fixtureResolver Fixtures.commit2 Fixtures.changeLineRecords
    _ _ (List.Perm.swap "delete_code.c" "change_line.c" [])

/-- Claim C8: for every permutation of the input rows that reorders records
of different files relative to each other (leaving each file's own
subsequence unchanged), the final per-file merge results are equal: the
arrival order of rows for different files does not affect any file's
MergeResult. -/
theorem claim_C8 (resolver : Resolver) (base : RepoCommit)
    (recs recs' : List MergeRecord)
    (hperm : recs.Perm recs')
    (hfiles : ∀ f : String, recs.filter (fun r => r.filePath = f)
      = recs'.filter (fun r => r.filePath = f)) :
    aggregateStreamData resolver base recs = aggregateStreamData resolver base recs' := by
  funext path
  unfold aggregateStreamData
  have hany : (recs.any fun r => r.filePath = path)
      = (recs'.any fun r => r.filePath = path) := by
    rw [any_eq_not_isEmpty_filter, any_eq_not_isEmpty_filter, hfiles path]
  rw [hfiles path, hany]

/-- Witness for C8: swapping a change_line.c row with a delete_code.c row
leaves both files' merge results unchanged. -/
theorem claim_C8_witness :
    aggregateStreamData Fixtures.fixtureResolver Fixtures.commit2
      [⟨"change_line.c", Fixtures.commit1, 2, 2, 1⟩,
       ⟨"delete_code.c", Fixtures.commit1, 2, 2, 1⟩]
    = aggregateStreamData Fixtures.fixtureResolver Fixtures.commit2
      [⟨"delete_code.c", Fixtures.commit1, 2, 2, 1⟩,
       ⟨"change_line.c", Fixtures.commit1, 2, 2, 1⟩] :=
  claim_C8 Fixtures.fixtureResolver Fixtures.commit2 _ _
    (List.Perm.swap (⟨"delete_code.c", Fixtures.commit1, 2, 2, 1⟩ : MergeRecord)
      (⟨"change_line.c", Fixtures.commit1, 2, 2, 1⟩ : MergeRecord) [])
    (by
      intro f
      by_cases h1 : "change_line.c" = f
      · subst h1
        decide
      · by_cases h2 : "delete_code.c" = f
        · subst h2
          decide
        · simp [List.filter_cons, h1, h2])

end Covermerger

namespace CovermergerTest

open Covermerger

/-- The fixture path the test mock reads for one commit, i.e.
filepath.Join(c.Workdir, "repos", repoCommit.Commit, targetFilePath). -/
def mockFilePath (workdir commit targetFilePath : String) : String :=
  workdir ++ "/repos/" ++ commit ++ "/" ++ targetFilePath

/-- fileVersProviderMock.GetFileVersions from covermerger_test.go, over an
abstract filesystem `readFile` (os.ReadFile: `.ok` with the contents, or
`.error` for any read failure, absence included).  Of the Config only the
Workdir field is consumed, so only it is passed.  The result is the Go pair
(fileVersions, error): a commit is inserted into the map only when its
fixture file reads successfully, and the error component is the function's
literal `nil`. -/
def GetFileVersions (readFile : String → Except String String) (workdir : String)
    (targetFilePath : String) (repoCommits : List RepoCommit) :
    (RepoCommit → Option String) × Option String :=
  (repoCommits.foldl
    (fun res rc =>
      match readFile (mockFilePath workdir rc.commit targetFilePath) with
      | .ok bytes => fun rc' => if rc' = rc then some bytes else res rc'
      | .error _ => res)
    (fun _ => none),
   none)

/-- Characterization of the mock's accumulation loop: a commit ends up in
the map exactly when it is requested and its fixture file reads
successfully, and then with those contents. -/
theorem getFileVersions_fold_apply (readFile : String → Except String String)
    (workdir targetFilePath : String) :
    ∀ (rcs : List RepoCommit) (acc : RepoCommit → Option String) (rc : RepoCommit),
      (rcs.foldl
        (fun res rc0 =>
          match readFile (mockFilePath workdir rc0.commit targetFilePath) with
          | .ok bytes => fun rc' => if rc' = rc0 then some bytes else res rc'
          | .error _ => res)
        acc) rc
      = if rc ∈ rcs ∧ (readFile (mockFilePath workdir rc.commit targetFilePath)).toOption ≠ none
        then (readFile (mockFilePath workdir rc.commit targetFilePath)).toOption
        else acc rc := by
  intro rcs
  induction rcs with
  | nil =>
    intro acc rc
    simp
  | cons r rest ih =>
    intro acc rc
    simp only [List.foldl_cons]
    cases hr : readFile (mockFilePath workdir r.commit targetFilePath) with
    | ok bytes =>
      simp only [hr]
      rw [ih]
      by_cases hrc : rc = r
      · subst hrc
        by_cases hmem : rc ∈ rest <;> simp [hr, hmem, Except.toOption]
      · simp [hrc, List.mem_cons]
    | error e =>
      simp only [hr]
      rw [ih]
      by_cases hrc : rc = r
      · subst hrc
        simp [hr, List.mem_cons, Except.toOption]
      · simp [hrc, List.mem_cons]

end CovermergerTest

namespace Dashboard

/-- CrashReferenceType from the dashboard entity file (a Go string type). -/
abbrev CrashReferenceType := String

/-- The CrashReferenceReporting constant. -/
def CrashReferenceReporting : CrashReferenceType := "reporting"

/-- The CrashReferenceJob constant. -/
def CrashReferenceJob : CrashReferenceType := "job"

/-- CrashReference from the dashboard entity file; the Go field `Type` is
rendered `refType` (`Type` is reserved in Lean) and `time.Time` as a `Nat`
timestamp. -/
structure CrashReference where
  refType : CrashReferenceType
  Key : String
  Time : Nat
deriving DecidableEq, Repr

/-- The Crash entity, restricted to the two fields Crash.AddReference
touches (Reported and References); the other fields are payload this
operation neither reads nor writes. -/
structure Crash where
  Reported : Nat
  References : List CrashReference
deriving DecidableEq, Repr

/-- The loop of Crash.AddReference: update the Time of the first reference
with the same (Type, Key) in place and stop, or append the new reference
when the loop finds none. -/
def addRefList (refs : List CrashReference) (newRef : CrashReference) :
    List CrashReference :=
  match refs with
  | [] => [newRef]
  | r :: rest =>
    if r.refType = newRef.refType ∧ r.Key = newRef.Key then
      { r with Time := newRef.Time } :: rest
    else
      r :: addRefList rest newRef

/-- Crash.AddReference from the dashboard entity file: unconditionally set
Reported to the new reference's Time, then update-or-append the reference. -/
def AddReference (crash : Crash) (newRef : CrashReference) : Crash :=
  { crash with Reported := newRef.Time, References := addRefList crash.References newRef }

/-- The in-place Time update the matching case of AddReference performs. -/
def updateTime (newRef r : CrashReference) : CrashReference :=
  if r.refType = newRef.refType ∧ r.Key = newRef.Key then { r with Time := newRef.Time }
  else r

/-- When no existing reference matches the new one's (Type, Key), the loop
falls through and appends. -/
theorem addRefList_no_match (newRef : CrashReference) :
    ∀ refs : List CrashReference,
      (∀ r ∈ refs, ¬(r.refType = newRef.refType ∧ r.Key = newRef.Key)) →
      addRefList refs newRef = refs ++ [newRef] := by
  intro refs
  induction refs with
  | nil => intro _; rfl
  | cons r rest ih =>
    intro h
    unfold addRefList
    rw [if_neg (h r (List.mem_cons_self r rest))]
    rw [ih (fun r' hr' => h r' (List.mem_cons_of_mem r hr'))]
    rfl

/-- Updating no-match references is the identity. -/
theorem map_updateTime_eq_self (newRef : CrashReference) :
    ∀ refs : List CrashReference,
      (∀ r ∈ refs, ¬(r.refType = newRef.refType ∧ r.Key = newRef.Key)) →
      refs.map (updateTime newRef) = refs := by
  intro refs
  induction refs with
  | nil => intro _; rfl
  | cons r rest ih =>
    intro h
    simp only [List.map_cons]
    rw [show updateTime newRef r = r from
      if_neg (h r (List.mem_cons_self r rest))]
    rw [ih (fun r' hr' => h r' (List.mem_cons_of_mem r hr'))]

/-- With (Type, Key)-distinct references and a matching entry present, the
first-match in-place update equals the pointwise update of the whole list. -/
theorem addRefList_match (newRef : CrashReference) :
    ∀ refs : List CrashReference,
      (refs.map (fun r => (r.refType, r.Key))).Nodup →
      (∃ r ∈ refs, r.refType = newRef.refType ∧ r.Key = newRef.Key) →
      addRefList refs newRef = refs.map (updateTime newRef) := by
  intro refs
  induction refs with
  | nil => intro _ hex; simp at hex
  | cons r rest ih =>
    intro hnd hex
    rw [List.map_cons] at hnd
    have hnd' := List.nodup_cons.mp hnd
    by_cases hr : r.refType = newRef.refType ∧ r.Key = newRef.Key
    · unfold addRefList
      rw [if_pos hr]
      simp only [List.map_cons]
      rw [show updateTime newRef r = { r with Time := newRef.Time } from if_pos hr]
      congr 1
      have hnomatch : ∀ r' ∈ rest, ¬(r'.refType = newRef.refType ∧ r'.Key = newRef.Key) := by
        intro r' hr' hmatch
        apply hnd'.1
        have hkeys : (r'.refType, r'.Key) = (r.refType, r.Key) := by
          rw [hmatch.1, hmatch.2, hr.1, hr.2]
        rw [← hkeys]
        exact List.mem_map_of_mem _ hr'
      exact (map_updateTime_eq_self newRef rest hnomatch).symm
    · unfold addRefList
      rw [if_neg hr]
      simp only [List.map_cons]
      rw [show updateTime newRef r = r from if_neg hr]
      congr 1
      apply ih hnd'.2
      rcases hex with ⟨r0, hr0mem, hr0⟩
      rcases List.mem_cons.mp hr0mem with h | h
      · exact absurd (h ▸ hr0) hr
      · exact ⟨r0, h, hr0⟩

/-- The (Type, Key) keys of a pointwise Time update are unchanged. -/
theorem keys_map_updateTime (newRef : CrashReference) :
    ∀ refs : List CrashReference,
      (refs.map (updateTime newRef)).map (fun r => (r.refType, r.Key))
        = refs.map (fun r => (r.refType, r.Key)) := by
  intro refs
  induction refs with
  | nil => rfl
  | cons r rest ih =>
    simp only [List.map_cons, ih]
    congr 1
    by_cases h : r.refType = newRef.refType ∧ r.Key = newRef.Key <;>
      simp [updateTime, h]

end Dashboard

namespace Dashboard

/-- AddReference keeps the (Type, Key) keys pairwise distinct: a match
rewrites Times in place (keys unchanged), a miss appends a key that was not
present. -/
theorem addRefList_nodup (newRef : CrashReference) (refs : List CrashReference)
    (hnd : (refs.map (fun r => (r.refType, r.Key))).Nodup) :
    ((addRefList refs newRef).map (fun r => (r.refType, r.Key))).Nodup := by
  by_cases hex : ∃ r ∈ refs, r.refType = newRef.refType ∧ r.Key = newRef.Key
  · rw [addRefList_match newRef refs hnd hex, keys_map_updateTime]
    exact hnd
  · push_neg at hex
    have hno : ∀ r ∈ refs, ¬(r.refType = newRef.refType ∧ r.Key = newRef.Key) := by
      intro r hr hc
      exact hex r hr hc.1 hc.2
    rw [addRefList_no_match newRef refs hno, List.map_append]
    refine List.Nodup.append hnd (List.nodup_singleton _) ?_
    intro a ha hb
    rcases List.mem_map.mp ha with ⟨r, hr, hkey⟩
    have hb' : a = (newRef.refType, newRef.Key) := by simpa using hb
    rw [hb'] at hkey
    simp only [Prod.ext_iff] at hkey
    exact hno r hr hkey

end Dashboard

namespace CovermergerTest

/-- Claim C9: the test-mode content resolver fileVersProviderMock.GetFileVersions
never returns a non-nil error: for every filesystem behavior, workdir, file
path and commit list, the error component is nil, and a commit is present in
the returned fileVersions map exactly when it was requested and its fixture
file read back contents — any read failure, absence included, is silently
omitted and indistinguishable from absence at this interface. -/
theorem claim_C9 (readFile : String → Except String String)
    (workdir targetFilePath : String) (repoCommits : List Covermerger.RepoCommit) :
    (GetFileVersions readFile workdir targetFilePath repoCommits).2 = none ∧
    ∀ rc : Covermerger.RepoCommit,
      (GetFileVersions readFile workdir targetFilePath repoCommits).1 rc
      = if rc ∈ repoCommits
        then (readFile (mockFilePath workdir rc.commit targetFilePath)).toOption
        else none := by
  refine ⟨rfl, ?_⟩
  intro rc
  unfold GetFileVersions
  dsimp only
  rw [getFileVersions_fold_apply]
  by_cases hmem : rc ∈ repoCommits <;>
    by_cases hro : (readFile (mockFilePath workdir rc.commit targetFilePath)).toOption = none <;>
    simp [hmem, hro]

end CovermergerTest

namespace Dashboard

/-- Claim C10: Crash.AddReference preserves the invariant that References
holds at most one entry per (Type, Key) pair: with pairwise-distinct keys,
a matching entry only has its Time updated in place and the length is
unchanged, otherwise the new reference is appended; and in both cases
crash.Reported is set unconditionally to the new reference's Time, even if
an existing reference has a later Time. -/
theorem claim_C10 (crash : Crash) (newRef : CrashReference)
    (hnd : (crash.References.map (fun r => (r.refType, r.Key))).Nodup) :
    (AddReference crash newRef).Reported = newRef.Time ∧
    (((AddReference crash newRef).References.map (fun r => (r.refType, r.Key))).Nodup) ∧
    ((∃ r ∈ crash.References, r.refType = newRef.refType ∧ r.Key = newRef.Key) →
      (AddReference crash newRef).References = crash.References.map (updateTime newRef) ∧
      (AddReference crash newRef).References.length = crash.References.length) ∧
    ((∀ r ∈ crash.References, ¬(r.refType = newRef.refType ∧ r.Key = newRef.Key)) →
      (AddReference crash newRef).References = crash.References ++ [newRef]) := by
  refine ⟨rfl, ?_, ?_, ?_⟩
  · exact addRefList_nodup newRef crash.References hnd
  · intro hex
    have h := addRefList_match newRef crash.References hnd hex
    constructor
    · exact h
    · show (addRefList crash.References newRef).length = _
      rw [h, List.length_map]
  · intro hno
    exact addRefList_no_match newRef crash.References hno

/-- Witness for C10: a crash with one "reporting"/"k" reference at time 100
receives a new "reporting"/"k" reference at the earlier time 50: Reported
drops to 50, the entry's Time is updated in place, nothing is appended. -/
theorem claim_C10_witness :
    (AddReference ⟨100, [⟨"reporting", "k", 100⟩]⟩ ⟨"reporting", "k", 50⟩).Reported = 50 ∧
    (((AddReference ⟨100, [⟨"reporting", "k", 100⟩]⟩
        ⟨"reporting", "k", 50⟩).References.map (fun r => (r.refType, r.Key))).Nodup) ∧
    ((∃ r ∈ [(⟨"reporting", "k", 100⟩ : CrashReference)],
        r.refType = "reporting" ∧ r.Key = "k") →
      (AddReference ⟨100, [⟨"reporting", "k", 100⟩]⟩ ⟨"reporting", "k", 50⟩).References
        = [(⟨"reporting", "k", 100⟩ : CrashReference)].map (updateTime ⟨"reporting", "k", 50⟩) ∧
      (AddReference ⟨100, [⟨"reporting", "k", 100⟩]⟩ ⟨"reporting", "k", 50⟩).References.length
        = [(⟨"reporting", "k", 100⟩ : CrashReference)].length) ∧
    ((∀ r ∈ [(⟨"reporting", "k", 100⟩ : CrashReference)],
        ¬(r.refType = "reporting" ∧ r.Key = "k")) →
      (AddReference ⟨100, [⟨"reporting", "k", 100⟩]⟩ ⟨"reporting", "k", 50⟩).References
        = [(⟨"reporting", "k", 100⟩ : CrashReference)] ++ [⟨"reporting", "k", 50⟩]) :=
  claim_C10 ⟨100, [⟨"reporting", "k", 100⟩]⟩ ⟨"reporting", "k", 50⟩ (by decide)

end Dashboard
